import Mathlib

/-
Verification of the OG-image composition and publish pipeline of the
afilmory repository.

Sources embedded here:
  - be/apps/core/src/modules/content/og/og.template.tsx
      (determineLayout, fitWithinBox, buildExifItems constants)
  - packages/builder/src/plugins/og-image-storage/index.ts
      (joinSegments, guessContentType, bufferToDataUrl,
       resolveThumbnailDataUrl, buildExifInfo, loadFonts,
       getOrCreateRunState, the afterPhotoProcess hook)

Numbers that are IEEE doubles in the source are embedded as exact
rationals; every literal appearing in the source (0.9, 1.1, 2.35, 0.82,
1200, 628, ...) is exactly representable, and all comparisons performed
by the source on these values agree with rational comparisons.
JavaScript NaN and Infinity are outside the rational embedding; the
source clamps them to 1 together with non-positive values, and the
clamp on non-positive rationals is embedded faithfully.
-/

namespace Afilmory

/-! ## Layout engine (og.template.tsx) -/

/-- Canvas width, fixed at 1200 in the source (const CANVAS). -/
def CANVAS_width : ℚ := 1200

/-- Canvas height, fixed at 628 in the source (const CANVAS). -/
def CANVAS_height : ℚ := 628

/-- The four layout categories of the source type LayoutType. -/
inductive LayoutType
  | portrait
  | square
  | landscape
  | wide
deriving DecidableEq, Repr

/-- Arrangement of photo and info panel, as in LayoutConfig.arrangement. -/
inductive Arrangement
  | split
  | stack
  | wide
deriving DecidableEq, Repr

/-- Photo fit mode, as in LayoutConfig.photoFit. -/
inductive PhotoFit
  | cover
  | contain
deriving DecidableEq, Repr

/-- The photoBox bounds of LayoutConfig. -/
structure PhotoBox where
  maxWidth : ℚ
  maxHeight : ℚ
deriving DecidableEq, Repr

/-- Embedding of the source interface LayoutConfig. -/
structure LayoutConfig where
  type : LayoutType
  arrangement : Arrangement
  padding : ℚ
  gap : ℚ
  photoBox : PhotoBox
  infoCompact : Bool
  photoFit : PhotoFit
deriving DecidableEq, Repr

/-- The source constant ogAspect = CANVAS.width / CANVAS.height. -/
def ogAspect : ℚ := CANVAS_width / CANVAS_height

/-- Embedding of determineLayout from og.template.tsx.  The source first
clamps a non-finite or non-positive aspect to 1; in the rational embedding
the clamp applies to non-positive values. -/
def determineLayout (aspect : ℚ) : LayoutConfig :=
  let finalAspect := if aspect ≤ 0 then 1 else aspect
  if finalAspect < 0.9 then
    { type := .portrait
      arrangement := .split
      padding := 60
      gap := 44
      photoBox := { maxWidth := CANVAS_width * 0.44, maxHeight := CANVAS_height - 60 * 2 }
      infoCompact := false
      photoFit := .cover }
  else if finalAspect ≤ 1.1 then
    { type := .square
      arrangement := .split
      padding := 60
      gap := 44
      photoBox := { maxWidth := CANVAS_width * 0.5, maxHeight := CANVAS_height - 60 * 2 }
      infoCompact := false
      photoFit := .cover }
  else if finalAspect ≥ 2.35 then
    { type := .wide
      arrangement := .wide
      padding := 50
      gap := 28
      photoBox := { maxWidth := CANVAS_width - 50 * 2, maxHeight := 340 }
      infoCompact := true
      photoFit := .contain }
  else
    { type := .landscape
      arrangement := if finalAspect / ogAspect ≤ 0.82 then .split else .stack
      padding := 54
      gap := 26
      photoBox := { maxWidth := CANVAS_width - 54 * 2, maxHeight := 410 }
      infoCompact := false
      photoFit := .cover }

/-- Result of fitWithinBox. -/
structure FittedSize where
  width : ℚ
  height : ℚ
deriving DecidableEq, Repr

/-- Embedding of fitWithinBox from og.template.tsx. -/
def fitWithinBox (aspect : ℚ) (box : PhotoBox) : FittedSize :=
  let width := box.maxWidth
  let height := width / aspect
  if height > box.maxHeight then
    { width := box.maxHeight * aspect, height := box.maxHeight }
  else
    { width := width, height := height }

/-! ## Theorems for the layout engine -/

/-- Classification written from the spec's words ("portrait below 0.9,
square on the closed interval from 0.9 to 1.1, wide at 2.35 and above,
landscape strictly between"), for comparison with determineLayout. -/
def specLayoutCategory (a : ℚ) : LayoutType :=
  if a < 0.9 then .portrait
  else if a ≤ 1.1 then .square
  else if a ≥ 2.35 then .wide
  else .landscape

/-- The category chosen by determineLayout for a positive aspect, spelt as
a nested conditional. -/
theorem determineLayout_type (a : ℚ) (ha : 0 < a) :
    (determineLayout a).type =
      if a < 0.9 then LayoutType.portrait
      else if a ≤ 1.1 then LayoutType.square
      else if a ≥ 2.35 then LayoutType.wide
      else LayoutType.landscape := by
  simp only [determineLayout]
  rw [if_neg (not_le.mpr ha)]
  split_ifs <;> rfl

/-- The arrangement chosen by determineLayout on the landscape branch. -/
theorem determineLayout_arrangement_landscape (a : ℚ) (h1 : 1.1 < a) (h2 : a < 2.35) :
    (determineLayout a).arrangement =
      if a / ogAspect ≤ 0.82 then Arrangement.split else Arrangement.stack := by
  have hcl : ¬ a ≤ 0 := by intro h; linarith
  have hp : ¬ a < 0.9 := by intro h; linarith
  have hs : ¬ a ≤ 1.1 := not_le.mpr h1
  have hw : ¬ a ≥ 2.35 := not_le.mpr h2
  simp only [determineLayout]
  rw [if_neg hcl, if_neg hp, if_neg hs, if_neg hw]

/-- C1: determineLayout assigns exactly one of the four categories to
every aspect ratio (non-positive values clamped to 1), and the assignment
agrees with the spec classification: portrait exactly below 0.9, square
exactly on the closed interval from 0.9 to 1.1, wide exactly at and above
2.35, landscape exactly strictly between; in particular 0.9 and 1.1
classify as square and 2.35 as wide, and on the landscape branch the
arrangement is split when aspect / (1200/628) is at most 0.82 and stack
otherwise. -/
theorem determineLayout_classification :
    (∀ a : ℚ, a ≤ 0 → determineLayout a = determineLayout 1)
    ∧ (∀ a : ℚ, 0 < a → (determineLayout a).type = specLayoutCategory a)
    ∧ (determineLayout 0.9).type = .square
    ∧ (determineLayout 1.1).type = .square
    ∧ (determineLayout 2.35).type = .wide
    ∧ (∀ a : ℚ, 1.1 < a → a < 2.35 →
        (determineLayout a).arrangement
          = if a / ogAspect ≤ 0.82 then Arrangement.split else Arrangement.stack) := by
  refine ⟨?_, ?_, ?_, ?_, ?_, ?_⟩
  · intro a ha
    simp only [determineLayout, if_pos ha]
    norm_num
  · intro a ha
    rw [determineLayout_type a ha, specLayoutCategory]
  · rw [determineLayout_type 0.9 (by norm_num), if_neg (by norm_num), if_pos (by norm_num)]
  · rw [determineLayout_type 1.1 (by norm_num), if_neg (by norm_num), if_pos (by norm_num)]
  · rw [determineLayout_type 2.35 (by norm_num), if_neg (by norm_num), if_neg (by norm_num),
      if_pos (by norm_num)]
  · intro a h1 h2
    exact determineLayout_arrangement_landscape a h1 h2

/-- Witness for determineLayout_classification: at a = 16/9 the landscape
branch chooses stack, since (16/9) / (1200/628) > 0.82. -/
theorem determineLayout_classification_witness :
    ((1.1 : ℚ) < 16/9 ∧ (16/9 : ℚ) < 2.35)
    ∧ (determineLayout (16/9)).arrangement = .stack := by
  have h := determineLayout_classification.2.2.2.2.2 (16/9) (by norm_num) (by norm_num)
  refine ⟨⟨by norm_num, by norm_num⟩, ?_⟩
  rw [h, if_neg ?_]
  rw [ogAspect, CANVAS_width, CANVAS_height]
  norm_num

/-- C2: for positive aspect and positive box bounds, fitWithinBox sets
width to maxWidth and height to width / aspect, recomputing from
maxHeight when that height overflows; the result never exceeds either
bound and preserves the aspect ratio exactly. -/
theorem fitWithinBox_bounds (a mw mh : ℚ) (ha : 0 < a) (hmw : 0 < mw) (hmh : 0 < mh) :
    (fitWithinBox a ⟨mw, mh⟩).width ≤ mw
    ∧ (fitWithinBox a ⟨mw, mh⟩).height ≤ mh
    ∧ (fitWithinBox a ⟨mw, mh⟩).width / (fitWithinBox a ⟨mw, mh⟩).height = a := by
  have ha' : a ≠ 0 := ne_of_gt ha
  simp only [fitWithinBox]
  split
  · rename_i h
    have hlt : mh < mw / a := h
    refine ⟨?_, le_refl _, ?_⟩
    · have : mh * a < (mw / a) * a := by
        exact mul_lt_mul_of_pos_right hlt ha
      rw [div_mul_cancel₀ mw ha'] at this
      exact le_of_lt this
    · rw [mul_comm, mul_div_assoc, div_self (ne_of_gt hmh), mul_one]
  · rename_i h
    refine ⟨le_refl _, le_of_not_lt h, ?_⟩
    rw [div_div_eq_mul_div, mul_comm, mul_div_assoc, div_self (ne_of_gt hmw), mul_one]

/-- Witness for fitWithinBox_bounds at a = 2, box 100 by 40: the fitted
box is 80 by 40, within bounds and of ratio 2. -/
theorem fitWithinBox_bounds_witness :
    ((0 : ℚ) < 2 ∧ (0 : ℚ) < 100 ∧ (0 : ℚ) < 40)
    ∧ (fitWithinBox 2 ⟨100, 40⟩).width ≤ 100
    ∧ (fitWithinBox 2 ⟨100, 40⟩).height ≤ 40
    ∧ (fitWithinBox 2 ⟨100, 40⟩).width / (fitWithinBox 2 ⟨100, 40⟩).height = 2 :=
  ⟨⟨by norm_num, by norm_num, by norm_num⟩,
    fitWithinBox_bounds 2 100 40 (by norm_num) (by norm_num) (by norm_num)⟩

/-! ## JavaScript value helpers

The plugin source tests values with JavaScript truthiness: a missing or
null field, the empty string, and the number 0 are falsy; everything else
is truthy.  Absent (undefined/null) values are embedded as none. -/

/-- Truthiness of an optional string: present and non-empty. -/
def truthyStr (s : Option String) : Bool :=
  match s with
  | some v => v != ""
  | none => false

/-- Truthiness of an optional number: present and non-zero.  Numeric EXIF
fields are embedded as integers. -/
def truthyInt (n : Option Int) : Bool :=
  match n with
  | some v => v != 0
  | none => false

/-- JavaScript a or-else b on optional strings: a when truthy, else b. -/
def jsOrStr (a b : Option String) : Option String :=
  if truthyStr a then a else b

/-- Lower-casing a string, character by character. -/
def jsToLower (s : String) : String := String.mk (s.data.map Char.toLower)

/-- String.prototype.endsWith. -/
def strEndsWith (s suf : String) : Bool := suf.data.isSuffixOf s.data

/-- String.prototype.startsWith. -/
def strStartsWith (s p : String) : Bool := p.data.isPrefixOf s.data

/-- Strip the characters satisfying p from both ends of a string. -/
def trimCharsBoth (p : Char → Bool) (s : String) : String :=
  String.mk (((s.data.dropWhile p).reverse.dropWhile p).reverse)

/-- JavaScript String.prototype.trim: strip whitespace from both ends. -/
def jsTrim (s : String) : String := trimCharsBoth Char.isWhitespace s

/-! ## Metadata summarizer (buildExifInfo, og-image-storage/index.ts) -/

/-- The raw EXIF block of a PhotoManifestItem, restricted to the fields
buildExifInfo reads.  String-valued fields are optional strings; numeric
fields (FNumber, ISO, ExposureTime) are embedded as optional integers. -/
structure PhotoExif where
  FocalLengthIn35mmFormat : Option String
  FocalLength : Option String
  FNumber : Option Int
  ISO : Option Int
  ExposureTime : Option Int
  Make : Option String
  Model : Option String
deriving DecidableEq, Repr

/-- A PhotoExif block with every field absent. -/
def emptyPhotoExif : PhotoExif :=
  { FocalLengthIn35mmFormat := none
    FocalLength := none
    FNumber := none
    ISO := none
    ExposureTime := none
    Make := none
    Model := none }

/-- Embedding of the source interface ExifInfo (og.template.tsx). -/
structure ExifInfo where
  focalLength : Option String
  aperture : Option String
  iso : Option Int
  shutterSpeed : Option String
  camera : Option String
deriving DecidableEq, Repr

/-- The five derived values of buildExifInfo, one record field per
let-binding of the source (focalLength, aperture, iso, shutterSpeed,
camera). -/
def exifSummaryFields (e : PhotoExif) : ExifInfo :=
  { focalLength := jsOrStr e.FocalLengthIn35mmFormat e.FocalLength
    aperture :=
      if truthyInt e.FNumber then e.FNumber.map (fun n => "f/" ++ toString n) else none
    iso := e.ISO
    shutterSpeed :=
      if truthyInt e.ExposureTime then e.ExposureTime.map (fun n => toString n ++ "s") else none
    camera :=
      if truthyStr e.Make && truthyStr e.Model then
        some (jsTrim (jsTrim (e.Make.getD "") ++ " " ++ jsTrim (e.Model.getD "")))
      else e.Model <|> e.Make }

/-- The source's emptiness test: every derived value is falsy. -/
def exifSummaryEmpty (e : PhotoExif) : Bool :=
  !truthyStr (exifSummaryFields e).focalLength
    && !truthyStr (exifSummaryFields e).aperture
    && !truthyInt (exifSummaryFields e).iso
    && !truthyStr (exifSummaryFields e).shutterSpeed
    && !truthyStr (exifSummaryFields e).camera

/-- Embedding of buildExifInfo from og-image-storage/index.ts.  The
argument is the optional exif block of the photo (photo.exif). -/
def buildExifInfo (exif : Option PhotoExif) : Option ExifInfo :=
  match exif with
  | none => none
  | some e =>
    if exifSummaryEmpty e then none else some (exifSummaryFields e)

/-- C8: the metadata summary prefers the 35mm-equivalent focal length
over the native one, formats the aperture as f/ followed by the f-number
when one exists, passes the ISO value through verbatim, formats the
shutter speed as the exposure time followed by s, and builds the camera
name from trimmed make and model, falling back to whichever single field
is present; an exif block with no fields at all yields the absent
summary, and a block with only an ISO value yields a summary containing
solely that field. -/
theorem buildExifInfo_summary :
    buildExifInfo none = none
    ∧ buildExifInfo (some emptyPhotoExif) = none
    ∧ (∀ n : Int, n ≠ 0 →
        buildExifInfo (some { emptyPhotoExif with ISO := some n })
          = some { focalLength := none, aperture := none, iso := some n,
                   shutterSpeed := none, camera := none })
    ∧ (∀ e s, buildExifInfo (some e) = some s →
        s.focalLength = jsOrStr e.FocalLengthIn35mmFormat e.FocalLength
        ∧ s.aperture
            = (if truthyInt e.FNumber then e.FNumber.map (fun n => "f/" ++ toString n) else none)
        ∧ s.iso = e.ISO
        ∧ s.shutterSpeed
            = (if truthyInt e.ExposureTime
                then e.ExposureTime.map (fun n => toString n ++ "s") else none)
        ∧ s.camera
            = (if truthyStr e.Make && truthyStr e.Model
                then some (jsTrim (jsTrim (e.Make.getD "") ++ " " ++ jsTrim (e.Model.getD "")))
                else e.Model <|> e.Make)) := by
  refine ⟨rfl, rfl, ?_, ?_⟩
  · intro n hn
    simp [buildExifInfo, exifSummaryEmpty, exifSummaryFields, emptyPhotoExif,
      jsOrStr, truthyStr, truthyInt, hn]
  · intro e s h
    simp only [buildExifInfo] at h
    split at h
    · exact absurd h (by simp)
    · simp only [Option.some.injEq] at h
      subst h
      exact ⟨rfl, rfl, rfl, rfl, rfl⟩

/-- Witness for buildExifInfo_summary: an exif block carrying only
ISO 400 yields a summary whose only field is that ISO value. -/
theorem buildExifInfo_summary_witness :
    (400 : Int) ≠ 0
    ∧ buildExifInfo (some { emptyPhotoExif with ISO := some 400 })
        = some { focalLength := none, aperture := none, iso := some 400,
                 shutterSpeed := none, camera := none } :=
  ⟨by decide, buildExifInfo_summary.2.2.1 400 (by decide)⟩

/-! ## Thumbnail resolver (resolveThumbnailDataUrl, og-image-storage/index.ts)

File contents and HTTP bodies are embedded as byte lists.  A data URL
of the source (the string data:contentType;base64,payload produced by
bufferToDataUrl) is embedded structurally as its content type together
with the encoded bytes; the base64 step is a bijection on the payload and
carries no information. -/

/-- Raw bytes of a Buffer or response body. -/
def ByteSeq := List Nat
deriving DecidableEq, Repr

/-- Structural embedding of a data URL string. -/
structure DataUrl where
  contentType : String
  payload : ByteSeq
deriving DecidableEq, Repr

/-- Embedding of bufferToDataUrl from og-image-storage/index.ts. -/
def bufferToDataUrl (buffer : ByteSeq) (contentType : String) : DataUrl :=
  { contentType := contentType, payload := buffer }

/-- Embedding of guessContentType from og-image-storage/index.ts. -/
def guessContentType (thumbnailUrl : String) : String :=
  let lowered := jsToLower thumbnailUrl
  if strEndsWith lowered ".png" then "image/png"
  else if strEndsWith lowered ".webp" then "image/webp"
  else "image/jpeg"

/-- The regular expression test on https?:// at the start of the URL,
case-insensitive. -/
def isHttpUrl (url : String) : Bool :=
  strStartsWith (jsToLower url) "http://" || strStartsWith (jsToLower url) "https://"

/-- Outcome of a fetch call: a thrown network error, or a response with
its ok flag, optional content-type header and body bytes. -/
inductive FetchOutcome
  | threw
  | resp (ok : Bool) (contentTypeHeader : Option String) (body : ByteSeq)
deriving DecidableEq, Repr

/-- Embedding of ThumbnailPluginData (thumbnail-storage/shared.js) as
used by the resolver: optional in-memory bytes and optional local URL. -/
structure ThumbnailPluginData where
  buffer : Option ByteSeq
  localUrl : Option String
deriving DecidableEq, Repr

/-- The ambient I/O of the resolver: the fetch primitive and the local
filesystem read, plus the builder working directory. -/
structure ThumbEnv where
  fetch : String → FetchOutcome
  readLocalFile : String → Option ByteSeq
  workdir : String

/-- The I/O attempts the resolver makes, in order. -/
inductive ThumbEv
  | fetchAttempt (url : String)
  | localReadAttempt (p : String)
deriving DecidableEq, Repr

/-- JavaScript replace of leading slashes (regex anchored at start). -/
def stripLeadingSlashes (s : String) : String :=
  String.mk (s.data.dropWhile (· == '/'))

/-- The local path the resolver reads: path.join(workdir, 'public',
normalized). -/
def localThumbPath (env : ThumbEnv) (url : String) : String :=
  env.workdir ++ "/public/" ++ stripLeadingSlashes url

/-- Embedding of resolveThumbnailDataUrl from og-image-storage/index.ts,
returning the resolved data URL (none on total failure) together with
the ordered list of I/O attempts made. -/
def resolveThumbnailDataUrl (env : ThumbEnv) (itemThumbnailUrl : Option String)
    (pluginData : Option ThumbnailPluginData) : Option DataUrl × List ThumbEv :=
  match pluginData.bind (·.buffer) with
  | some buf => (some (bufferToDataUrl buf "image/jpeg"), [])
  | none =>
    let thumbnailUrl := jsOrStr (pluginData.bind (·.localUrl)) itemThumbnailUrl
    if !truthyStr thumbnailUrl then (none, [])
    else
      match thumbnailUrl with
      | none => (none, [])
      | some url =>
        let contentType := guessContentType url
        let fetched : Option DataUrl :=
          if isHttpUrl url then
            match env.fetch url with
            | .resp true hdr body => some (bufferToDataUrl body (hdr.getD contentType))
            | _ => none
          else none
        let fetchEvs : List ThumbEv := if isHttpUrl url then [.fetchAttempt url] else []
        match fetched with
        | some d => (some d, fetchEvs)
        | none =>
          let localPath := localThumbPath env url
          match env.readLocalFile localPath with
          | some buf =>
            (some (bufferToDataUrl buf contentType), fetchEvs ++ [.localReadAttempt localPath])
          | none => (none, fetchEvs ++ [.localReadAttempt localPath])

/-- C9: the thumbnail resolver tries sources in a fixed order with first
success winning: in-memory bytes are encoded as image/jpeg without any
I/O; an absolute http(s) URL is fetched and on success encoded with the
declared content-type or, failing a header, a type guessed from the
extension (.png to image/png, .webp to image/webp, else image/jpeg); on
fetch failure it falls through to reading the URL as a local path under
the public root; if everything fails it returns none rather than
raising. -/
theorem resolveThumbnailDataUrl_order :
    (∀ env itemUrl pd buf, pd.bind ThumbnailPluginData.buffer = some buf →
        resolveThumbnailDataUrl env itemUrl pd = (some (bufferToDataUrl buf "image/jpeg"), []))
    ∧ (∀ env itemUrl pd url hdr body,
        pd.bind ThumbnailPluginData.buffer = none →
        jsOrStr (pd.bind ThumbnailPluginData.localUrl) itemUrl = some url →
        url ≠ "" →
        isHttpUrl url = true →
        env.fetch url = .resp true hdr body →
        resolveThumbnailDataUrl env itemUrl pd
          = (some (bufferToDataUrl body (hdr.getD (guessContentType url))),
              [.fetchAttempt url]))
    ∧ (∀ env itemUrl pd url,
        pd.bind ThumbnailPluginData.buffer = none →
        jsOrStr (pd.bind ThumbnailPluginData.localUrl) itemUrl = some url →
        url ≠ "" →
        isHttpUrl url = true →
        (∀ hdr body, env.fetch url ≠ .resp true hdr body) →
        resolveThumbnailDataUrl env itemUrl pd
          = (match env.readLocalFile (localThumbPath env url) with
              | some buf => (some (bufferToDataUrl buf (guessContentType url)),
                  [.fetchAttempt url, .localReadAttempt (localThumbPath env url)])
              | none => (none, [.fetchAttempt url, .localReadAttempt (localThumbPath env url)])))
    ∧ (∀ env itemUrl pd url,
        pd.bind ThumbnailPluginData.buffer = none →
        jsOrStr (pd.bind ThumbnailPluginData.localUrl) itemUrl = some url →
        url ≠ "" →
        isHttpUrl url = false →
        resolveThumbnailDataUrl env itemUrl pd
          = (match env.readLocalFile (localThumbPath env url) with
              | some buf => (some (bufferToDataUrl buf (guessContentType url)),
                  [.localReadAttempt (localThumbPath env url)])
              | none => (none, [.localReadAttempt (localThumbPath env url)])))
    ∧ guessContentType "a.PNG" = "image/png"
    ∧ guessContentType "b.webp" = "image/webp"
    ∧ guessContentType "c.jpg" = "image/jpeg" := by
  refine ⟨?_, ?_, ?_, ?_, by decide, by decide, by decide⟩
  · intro env itemUrl pd buf h
    simp only [resolveThumbnailDataUrl, h]
  · intro env itemUrl pd url hdr body hbuf hurl hne hhttp hfetch
    simp only [resolveThumbnailDataUrl, hbuf, hurl, hfetch, hhttp, truthyStr]
    simp [hne]
  · intro env itemUrl pd url hbuf hurl hne hhttp hf
    cases hfe : env.fetch url with
    | threw =>
      simp only [resolveThumbnailDataUrl, hbuf, hurl, hfe, hhttp, truthyStr]
      simp [hne]
    | resp ok hdr body =>
      cases ok with
      | true => exact absurd hfe (hf hdr body)
      | false =>
        simp only [resolveThumbnailDataUrl, hbuf, hurl, hfe, hhttp, truthyStr]
        simp [hne]
  · intro env itemUrl pd url hbuf hurl hne hhttp
    simp only [resolveThumbnailDataUrl, hbuf, hurl, hhttp, truthyStr]
    simp [hne]

/-- Witness for resolveThumbnailDataUrl_order: with no in-memory bytes,
a relative thumbnail URL and a readable local file, the resolver returns
the local bytes typed by the extension after exactly one local read. -/
theorem resolveThumbnailDataUrl_order_witness :
    ((none : Option ThumbnailPluginData).bind ThumbnailPluginData.buffer = none
      ∧ jsOrStr ((none : Option ThumbnailPluginData).bind ThumbnailPluginData.localUrl)
          (some "thumbs/a.webp") = some "thumbs/a.webp"
      ∧ "thumbs/a.webp" ≠ ""
      ∧ isHttpUrl "thumbs/a.webp" = false)
    ∧ resolveThumbnailDataUrl
        { fetch := fun _ => .threw
          readLocalFile := fun p => if p == "/w/public/thumbs/a.webp" then some [7, 7] else none
          workdir := "/w" }
        (some "thumbs/a.webp") none
        = (some (bufferToDataUrl [7, 7] "image/webp"),
            [.localReadAttempt "/w/public/thumbs/a.webp"]) := by
  refine ⟨⟨rfl, by decide, by decide, by decide⟩, ?_⟩
  have h := resolveThumbnailDataUrl_order.2.2.2.1
    { fetch := fun _ => .threw
      readLocalFile := fun p => if p == "/w/public/thumbs/a.webp" then some [7, 7] else none
      workdir := "/w" }
    (some "thumbs/a.webp") none "thumbs/a.webp" rfl (by decide) (by decide) (by decide)
  rw [h]
  decide

/-! ## Run-scoped dedup cache and publish orchestration
(afterPhotoProcess, og-image-storage/index.ts)

The afterPhotoProcess hook is embedded as a step function on the per-run
state.  The storage port (uploadFile, generatePublicUrl), the render
pipeline and the filesystem are external collaborators; their outcomes
for the processed item are inputs of the step, and every invocation of
one of them is recorded in an ordered event list, so that "operation X
is never invoked" is the absence of the corresponding event.  Thumbnail
resolution, EXIF summarisation and date formatting also happen on the
render path; they never throw (each catches its own failures, see
resolveThumbnailDataUrl) and touch neither the run state nor the
write-back field, so they are not recorded as events here. -/

/-- One font of the bundle returned by loadFonts. -/
structure FontEntry where
  name : String
  data : ByteSeq
deriving DecidableEq, Repr

/-- Embedding of normalizeSegment work done inside joinSegments:
backslashes become slashes, then leading and trailing slashes are
stripped. -/
def normalizeSegment (s : String) : String :=
  trimCharsBoth (· == '/') (String.mk (s.data.map fun c => if c == '\\' then '/' else c))

/-- Join a list of strings with slashes. -/
def joinWithSlash : List String → String
  | [] => ""
  | [s] => s
  | s :: rest => s ++ "/" ++ joinWithSlash rest

/-- Embedding of joinSegments from og-image-storage/index.ts. -/
def joinSegments (segments : List String) : String :=
  joinWithSlash ((segments.map normalizeSegment).filter (fun s => s != ""))

/-- Site branding resolved by loadSiteMeta (which never throws: an
unreadable config file falls back to configured defaults). -/
structure SiteMeta where
  siteName : String
  accentColor : Option String
deriving DecidableEq, Repr

/-- Embedding of the source interface PluginRunState, created by
getOrCreateRunState with an empty key set, an empty URL cache and a null
font field. -/
structure PluginRunState where
  uploaded : List String
  urlCache : List (String × String)
  fonts : Option (List FontEntry)
  siteMeta : Option SiteMeta
deriving DecidableEq, Repr

/-- The state getOrCreateRunState installs on first use in a run. -/
def initialRunState : PluginRunState :=
  { uploaded := [], urlCache := [], fonts := none, siteMeta := none }

/-- Lookup in the run's URL cache (Map.get). -/
def cacheGet (c : List (String × String)) (k : String) : Option String :=
  (c.find? (fun p => p.1 == k)).map (·.2)

/-- Insertion into the run's URL cache (Map.set). -/
def cacheSet (c : List (String × String)) (k v : String) : List (String × String) :=
  (k, v) :: c.filter (fun p => p.1 != k)

/-- Insertion into the run's uploaded-key set (Set.add). -/
def setInsert (s : List String) (k : String) : List String :=
  if s.contains k then s else k :: s

/-- The per-run environment: the resolved remote directory, the result of
the candidate-directory search for each required font file, and the site
metadata loadSiteMeta would resolve.  All of these are fixed for one run
of the builder. -/
structure RunEnv where
  remoteDir : String
  findFontFile : String → Option ByteSeq
  siteMeta : SiteMeta

/-- Embedding of loadFonts: both fixed font files must be found by the
candidate-directory search, else the whole bundle is null. -/
def loadFonts (env : RunEnv) : Option (List FontEntry) :=
  match env.findFontFile "Geist-Medium.ttf", env.findFontFile "HarmonyOS_Sans_SC_Medium.ttf" with
  | some geist, some harmony =>
    some [{ name := "Geist", data := geist }, { name := "HarmonyOS Sans SC", data := harmony }]
  | _, _ => none

/-- Observable operations of one afterPhotoProcess invocation, in order:
the site-meta load, the font load (with its warning when the bundle is
missing), the render, the upload and the public-URL resolution, the
latter three tagged with their outcome. -/
inductive RunEv
  | siteMetaLoad
  | fontsLoad
  | fontsWarn
  | renderAttempt (id : String) (ok : Bool)
  | uploadAttempt (key : String) (ok : Bool)
  | urlAttempt (key : String) (ok : Bool)
deriving DecidableEq, Repr

/-- The per-item inputs of afterPhotoProcess: the payload fields the hook
reads and the outcomes the external collaborators would produce for this
item (render success, upload success, URL resolution result), plus the
item's preview-URL field before the call. -/
structure ItemCtx where
  id : String
  skipped : Bool
  isForceMode : Bool
  isForceManifest : Bool
  renderOk : Bool
  uploadOk : Bool
  urlResult : Option String
  ogImageUrl : Option String
deriving DecidableEq, Repr

/-- The result of one afterPhotoProcess invocation: the new run state,
the item's preview-URL field after the call, and the ordered events. -/
structure StepOut where
  state : PluginRunState
  itemUrl : Option String
  evs : List RunEv
deriving DecidableEq, Repr

/-- The deterministic remote key of an item:
joinSegments(resolved.remotePrefix, item.id + ".png"). -/
def remoteKeyFor (env : RunEnv) (it : ItemCtx) : String :=
  joinSegments [env.remoteDir, it.id ++ ".png"]

/-- The source's shouldRender flag:
type !== 'skipped' or isForceMode or isForceManifest. -/
def shouldRenderFlag (it : ItemCtx) : Bool :=
  !it.skipped || it.isForceMode || it.isForceManifest

/-- The tail of the render path after a successful render and the upload
decision: reuse the cached public URL when one is cached (and truthy),
else call generatePublicUrl, caching and writing back on success and
aborting the item on failure. -/
def finishWithUrl (st : PluginRunState) (it : ItemCtx) (key : String) : StepOut :=
  let cached := cacheGet st.urlCache key
  if truthyStr cached then { state := st, itemUrl := cached, evs := [] }
  else
    match it.urlResult with
    | some url =>
      { state := { st with urlCache := cacheSet st.urlCache key url }
        itemUrl := some url
        evs := [.urlAttempt key true] }
    | none => { state := st, itemUrl := it.ogImageUrl, evs := [.urlAttempt key false] }

/-- The site-meta and font phases that precede the render decision: both
caches are populated when empty; a null loadFonts result is written back
as null. -/
def stepPrelude (env : RunEnv) (st : PluginRunState) : PluginRunState × List RunEv :=
  let st1 := if st.siteMeta.isNone then { st with siteMeta := some env.siteMeta } else st
  let evs1 : List RunEv := if st.siteMeta.isNone then [.siteMetaLoad] else []
  if st1.fonts.isNone then
    match loadFonts env with
    | some fs => ({ st1 with fonts := some fs }, evs1 ++ [.fontsLoad])
    | none => ({ st1 with fonts := none }, evs1 ++ [.fontsLoad, .fontsWarn])
  else (st1, evs1)

/-- The body of afterPhotoProcess once fonts are available: the skip path
resolves and caches the public URL without rendering or uploading; the
render path renders, uploads unless the key is already in the uploaded
set and no force flag is set, and resolves the public URL; any upload or
URL failure aborts this item only. -/
def stepBody (st : PluginRunState) (it : ItemCtx) (key : String) : StepOut :=
  if !shouldRenderFlag it then
    match it.urlResult with
    | some url =>
      { state := { st with urlCache := cacheSet st.urlCache key url }
        itemUrl := some url
        evs := [.urlAttempt key true] }
    | none => { state := st, itemUrl := it.ogImageUrl, evs := [.urlAttempt key false] }
  else if !it.renderOk then
    { state := st, itemUrl := it.ogImageUrl, evs := [.renderAttempt it.id false] }
  else if !(st.uploaded.contains key) || it.isForceMode || it.isForceManifest then
    if it.uploadOk then
      let f := finishWithUrl { st with uploaded := setInsert st.uploaded key } it key
      { state := f.state
        itemUrl := f.itemUrl
        evs := [.renderAttempt it.id true, .uploadAttempt key true] ++ f.evs }
    else
      { state := st
        itemUrl := it.ogImageUrl
        evs := [.renderAttempt it.id true, .uploadAttempt key false] }
  else
    let f := finishWithUrl st it key
    { state := f.state, itemUrl := f.itemUrl, evs := [.renderAttempt it.id true] ++ f.evs }

/-- Embedding of the afterPhotoProcess hook for one catalog item (plugin
enabled, storage manager resolved, item present).  The function is total:
every failure is scoped to this item and the run continues. -/
def afterPhotoProcess (env : RunEnv) (st : PluginRunState) (it : ItemCtx) : StepOut :=
  let p := stepPrelude env st
  match p.1.fonts with
  | none => { state := p.1, itemUrl := it.ogImageUrl, evs := p.2 }
  | some _ =>
    let b := stepBody p.1 it (remoteKeyFor env it)
    { state := b.state, itemUrl := b.itemUrl, evs := p.2 ++ b.evs }

/-- A whole run: afterPhotoProcess folded over the item list, collecting
all events. -/
def runAll (env : RunEnv) (st : PluginRunState) : List ItemCtx → PluginRunState × List RunEv
  | [] => (st, [])
  | it :: rest =>
    let o := afterPhotoProcess env st it
    let r := runAll env o.state rest
    (r.1, o.evs ++ r.2)

/-- Recogniser for upload events. -/
def isUploadEv : RunEv → Bool
  | .uploadAttempt _ _ => true
  | _ => false

/-- Recogniser for render events. -/
def isRenderEv : RunEv → Bool
  | .renderAttempt _ _ => true
  | _ => false

/-- Recogniser for URL-resolution events. -/
def isUrlEv : RunEv → Bool
  | .urlAttempt _ _ => true
  | _ => false

/-- The fonts afterPhotoProcess ends up with: the cached bundle when one
is cached, else the loadFonts result. -/
def effFonts (env : RunEnv) (st : PluginRunState) : Option (List FontEntry) :=
  match st.fonts with
  | some fs => some fs
  | none => loadFonts env

/-! ## Helper lemmas about the step phases -/

theorem stepPrelude_fonts (env : RunEnv) (st : PluginRunState) :
    (stepPrelude env st).1.fonts = effFonts env st := by
  simp only [stepPrelude, effFonts]
  cases hsm : st.siteMeta <;> cases hfs : st.fonts <;>
    cases hlf : loadFonts env <;> simp [hsm, hfs, hlf]

theorem stepPrelude_uploaded (env : RunEnv) (st : PluginRunState) :
    (stepPrelude env st).1.uploaded = st.uploaded := by
  simp only [stepPrelude]
  cases hsm : st.siteMeta <;> cases hfs : st.fonts <;>
    cases hlf : loadFonts env <;> simp [hsm, hfs, hlf]

theorem stepPrelude_urlCache (env : RunEnv) (st : PluginRunState) :
    (stepPrelude env st).1.urlCache = st.urlCache := by
  simp only [stepPrelude]
  cases hsm : st.siteMeta <;> cases hfs : st.fonts <;>
    cases hlf : loadFonts env <;> simp [hsm, hfs, hlf]

theorem stepPrelude_evs (env : RunEnv) (st : PluginRunState) :
    ∀ e ∈ (stepPrelude env st).2, isUploadEv e = false ∧ isRenderEv e = false ∧ isUrlEv e = false := by
  intro e he
  have hmem : e = RunEv.siteMetaLoad ∨ e = RunEv.fontsLoad ∨ e = RunEv.fontsWarn := by
    simp only [stepPrelude] at he
    cases hsm : st.siteMeta <;> cases hfs : st.fonts <;> cases hlf : loadFonts env <;>
      simp [hsm, hfs, hlf] at he <;> tauto
  rcases hmem with rfl | rfl | rfl <;> simp [isUploadEv, isRenderEv, isUrlEv]

theorem cacheGet_cacheSet_self (c : List (String × String)) (k v : String) :
    cacheGet (cacheSet c k v) k = some v := by
  simp [cacheGet, cacheSet]

theorem afterPhotoProcess_of_fonts_none (env : RunEnv) (st : PluginRunState) (it : ItemCtx)
    (h : effFonts env st = none) :
    afterPhotoProcess env st it
      = { state := (stepPrelude env st).1, itemUrl := it.ogImageUrl,
          evs := (stepPrelude env st).2 } := by
  simp only [afterPhotoProcess, stepPrelude_fonts, h]

theorem afterPhotoProcess_of_fonts_some (env : RunEnv) (st : PluginRunState) (it : ItemCtx)
    (fs : List FontEntry) (h : effFonts env st = some fs) :
    afterPhotoProcess env st it
      = { state := (stepBody (stepPrelude env st).1 it (remoteKeyFor env it)).state
          itemUrl := (stepBody (stepPrelude env st).1 it (remoteKeyFor env it)).itemUrl
          evs := (stepPrelude env st).2
              ++ (stepBody (stepPrelude env st).1 it (remoteKeyFor env it)).evs } := by
  simp only [afterPhotoProcess, stepPrelude_fonts, h]

/-! ## Claim theorems for the publish orchestration -/

/-- C3: for an item skipped upstream with neither force flag set
(shouldRender false), the upload operation is never invoked; when fonts
are available, a successful URL resolution for the item's remote key is
stored in the run's urlCache and written to the item's preview-URL
field, and a failed one leaves the field untouched (the step is total,
so the run continues with the next item either way). -/
theorem afterPhotoProcess_skip_path (env : RunEnv) (st : PluginRunState) (it : ItemCtx)
    (hsk : it.skipped = true) (hfm : it.isForceMode = false) (hff : it.isForceManifest = false) :
    (∀ k ok, RunEv.uploadAttempt k ok ∉ (afterPhotoProcess env st it).evs)
    ∧ (∀ fs, effFonts env st = some fs →
        (∀ url, it.urlResult = some url →
            cacheGet (afterPhotoProcess env st it).state.urlCache (remoteKeyFor env it) = some url
            ∧ (afterPhotoProcess env st it).itemUrl = some url)
        ∧ (it.urlResult = none → (afterPhotoProcess env st it).itemUrl = it.ogImageUrl)) := by
  have hsr : shouldRenderFlag it = false := by
    simp [shouldRenderFlag, hsk, hfm, hff]
  constructor
  · intro k ok hmem
    cases hf : effFonts env st with
    | none =>
      rw [afterPhotoProcess_of_fonts_none env st it hf] at hmem
      exact absurd ((stepPrelude_evs env st _ hmem).1) (by simp [isUploadEv])
    | some fs =>
      rw [afterPhotoProcess_of_fonts_some env st it fs hf] at hmem
      rcases List.mem_append.mp hmem with hpre | hbody
      · exact absurd ((stepPrelude_evs env st _ hpre).1) (by simp [isUploadEv])
      · simp only [stepBody, hsr] at hbody
        cases hu : it.urlResult <;> simp [hu] at hbody
  · intro fs hf
    rw [afterPhotoProcess_of_fonts_some env st it fs hf]
    constructor
    · intro url hu
      simp only [stepBody, hsr, hu]
      simp [cacheGet_cacheSet_self]
    · intro hu
      simp only [stepBody, hsr, hu]
      simp

/-- Witness for afterPhotoProcess_skip_path: a skipped item whose URL
resolves caches and writes back that URL, with no upload event. -/
theorem afterPhotoProcess_skip_path_witness :
    ((true : Bool) = true ∧ (false : Bool) = false)
    ∧ (RunEv.uploadAttempt "og/i1.png" true
        ∉ (afterPhotoProcess
            { remoteDir := "og", findFontFile := fun _ => some [0],
              siteMeta := { siteName := "S", accentColor := none } }
            initialRunState
            { id := "i1", skipped := true, isForceMode := false, isForceManifest := false,
              renderOk := true, uploadOk := true, urlResult := some "https://cdn/og/i1.png",
              ogImageUrl := none }).evs)
    ∧ (afterPhotoProcess
          { remoteDir := "og", findFontFile := fun _ => some [0],
            siteMeta := { siteName := "S", accentColor := none } }
          initialRunState
          { id := "i1", skipped := true, isForceMode := false, isForceManifest := false,
            renderOk := true, uploadOk := true, urlResult := some "https://cdn/og/i1.png",
            ogImageUrl := none }).itemUrl = some "https://cdn/og/i1.png" := by
  have h := afterPhotoProcess_skip_path
    { remoteDir := "og", findFontFile := fun _ => some [0],
      siteMeta := { siteName := "S", accentColor := none } }
    initialRunState
    { id := "i1", skipped := true, isForceMode := false, isForceManifest := false,
      renderOk := true, uploadOk := true, urlResult := some "https://cdn/og/i1.png",
      ogImageUrl := none }
    rfl rfl rfl
  exact ⟨⟨rfl, rfl⟩, h.1 "og/i1.png" true,
    ((h.2 [{ name := "Geist", data := [0] }, { name := "HarmonyOS Sans SC", data := [0] }]
      (by decide)).1 "https://cdn/og/i1.png" rfl).2⟩

theorem finishWithUrl_evs (st : PluginRunState) (it : ItemCtx) (key : String) :
    ∀ e ∈ (finishWithUrl st it key).evs, isUrlEv e = true := by
  intro e he
  simp only [finishWithUrl] at he
  split at he
  · simp at he
  · cases hu : it.urlResult <;> simp [hu] at he <;> simp [he, isUrlEv]

theorem finishWithUrl_uploaded (st : PluginRunState) (it : ItemCtx) (key : String) :
    (finishWithUrl st it key).state.uploaded = st.uploaded := by
  simp only [finishWithUrl]
  split
  · rfl
  · cases hu : it.urlResult <;> simp [hu]

/-- C4: when the item's remote key is already in the run's uploadedKeys
set, either force flag makes the upload run again (given available fonts
and a successful render, the path that reaches the upload decision),
while with neither force flag set the upload is skipped. -/
theorem afterPhotoProcess_force_semantics (env : RunEnv) (st : PluginRunState) (it : ItemCtx)
    (fs : List FontEntry) (hf : effFonts env st = some fs)
    (hkey : st.uploaded.contains (remoteKeyFor env it) = true) :
    (it.renderOk = true → (it.isForceMode = true ∨ it.isForceManifest = true) →
        RunEv.uploadAttempt (remoteKeyFor env it) it.uploadOk ∈ (afterPhotoProcess env st it).evs)
    ∧ (it.isForceMode = false → it.isForceManifest = false →
        ∀ k ok, RunEv.uploadAttempt k ok ∉ (afterPhotoProcess env st it).evs) := by
  rw [afterPhotoProcess_of_fonts_some env st it fs hf]
  constructor
  · intro hrend hforce
    have hsr : shouldRenderFlag it = true := by
      rcases hforce with h | h <;> simp [shouldRenderFlag, h]
    refine List.mem_append.mpr (Or.inr ?_)
    have hcond : (!((stepPrelude env st).1.uploaded.contains (remoteKeyFor env it))
        || it.isForceMode || it.isForceManifest) = true := by
      rcases hforce with h | h <;> simp [h]
    simp only [stepBody, hsr, hrend, hcond]
    cases hupo : it.uploadOk <;> simp
  · intro hfm hff k ok hmem
    rcases List.mem_append.mp hmem with hpre | hbody
    · exact absurd ((stepPrelude_evs env st _ hpre).1) (by simp [isUploadEv])
    · cases hsk : it.skipped with
      | true =>
        have hsr : shouldRenderFlag it = false := by
          simp [shouldRenderFlag, hsk, hfm, hff]
        simp only [stepBody, hsr] at hbody
        cases hu : it.urlResult <;> simp [hu] at hbody
      | false =>
        have hsr : shouldRenderFlag it = true := by
          simp [shouldRenderFlag, hsk]
        have hcond : (!((stepPrelude env st).1.uploaded.contains (remoteKeyFor env it))
            || it.isForceMode || it.isForceManifest) = false := by
          simp [stepPrelude_uploaded, hfm, hff]
          simpa using hkey
        simp only [stepBody, hsr, hcond] at hbody
        cases hrend : it.renderOk
        · simp [hrend] at hbody
        · simp [hrend] at hbody
          exact absurd (finishWithUrl_evs _ _ _ _ hbody) (by simp [isUrlEv])

/-- Witness for afterPhotoProcess_force_semantics: with the key already
uploaded and forceMode set, the upload event for that key appears again
in the step's event list. -/
theorem afterPhotoProcess_force_semantics_witness :
    effFonts
        { remoteDir := "og", findFontFile := fun _ => some [0],
          siteMeta := { siteName := "S", accentColor := none } }
        { uploaded := ["og/i2.png"], urlCache := [], fonts := none, siteMeta := none }
      = some [{ name := "Geist", data := [0] }, { name := "HarmonyOS Sans SC", data := [0] }]
    ∧ RunEv.uploadAttempt "og/i2.png" true
        ∈ (afterPhotoProcess
            { remoteDir := "og", findFontFile := fun _ => some [0],
              siteMeta := { siteName := "S", accentColor := none } }
            { uploaded := ["og/i2.png"], urlCache := [], fonts := none, siteMeta := none }
            { id := "i2", skipped := true, isForceMode := true, isForceManifest := false,
              renderOk := true, uploadOk := true, urlResult := some "u",
              ogImageUrl := none }).evs := by
  refine ⟨by decide, ?_⟩
  have h := (afterPhotoProcess_force_semantics
    { remoteDir := "og", findFontFile := fun _ => some [0],
      siteMeta := { siteName := "S", accentColor := none } }
    { uploaded := ["og/i2.png"], urlCache := [], fonts := none, siteMeta := none }
    { id := "i2", skipped := true, isForceMode := true, isForceManifest := false,
      renderOk := true, uploadOk := true, urlResult := some "u", ogImageUrl := none }
    [{ name := "Geist", data := [0] }, { name := "HarmonyOS Sans SC", data := [0] }]
    (by decide) (by decide)).1 rfl (Or.inl rfl)
  exact h

theorem stepPrelude_filter_upload (env : RunEnv) (st : PluginRunState) :
    ((stepPrelude env st).2.filter isUploadEv) = [] := by
  rw [List.filter_eq_nil_iff]
  intro e he
  simp [(stepPrelude_evs env st e he).1]

/-- C5: when the render succeeded, the upload was attempted (key not yet
uploaded, or a force flag set) and the upload fails, processing of the
item aborts after the render: the key is not added to uploadedKeys, the
urlCache is unchanged, the item's preview-URL field is untouched, no URL
resolution is attempted, and exactly one (failed) upload event exists,
so there is no retry. -/
theorem afterPhotoProcess_upload_failure (env : RunEnv) (st : PluginRunState) (it : ItemCtx)
    (fs : List FontEntry) (hf : effFonts env st = some fs)
    (hsr : shouldRenderFlag it = true) (hrend : it.renderOk = true)
    (hcond : (!(st.uploaded.contains (remoteKeyFor env it))
        || it.isForceMode || it.isForceManifest) = true)
    (hupo : it.uploadOk = false) :
    (afterPhotoProcess env st it).state.uploaded = st.uploaded
    ∧ (afterPhotoProcess env st it).state.urlCache = st.urlCache
    ∧ (afterPhotoProcess env st it).itemUrl = it.ogImageUrl
    ∧ (∀ k ok, RunEv.urlAttempt k ok ∉ (afterPhotoProcess env st it).evs)
    ∧ ((afterPhotoProcess env st it).evs.filter isUploadEv)
        = [RunEv.uploadAttempt (remoteKeyFor env it) false]
    ∧ RunEv.renderAttempt it.id true ∈ (afterPhotoProcess env st it).evs := by
  rw [afterPhotoProcess_of_fonts_some env st it fs hf]
  have hcond' : (!((stepPrelude env st).1.uploaded.contains (remoteKeyFor env it))
      || it.isForceMode || it.isForceManifest) = true := by
    rw [stepPrelude_uploaded]; exact hcond
  simp only [stepBody, hsr, hrend, hcond', hupo]
  refine ⟨?_, ?_, ?_, ?_, ?_, ?_⟩
  · simp [stepPrelude_uploaded]
  · simp [stepPrelude_urlCache]
  · simp
  · intro k ok hmem
    simp only [List.mem_append] at hmem
    rcases hmem with hpre | hbody
    · exact absurd ((stepPrelude_evs env st _ hpre).2.2) (by simp [isUrlEv])
    · simp at hbody
  · rw [List.filter_append, stepPrelude_filter_upload]
    simp [isUploadEv]
  · simp

/-- Witness for afterPhotoProcess_upload_failure: a fresh key whose
upload fails leaves the run state and the item untouched apart from the
single failed upload event after the render. -/
theorem afterPhotoProcess_upload_failure_witness :
    (shouldRenderFlag
        { id := "i3", skipped := false, isForceMode := false, isForceManifest := false,
          renderOk := true, uploadOk := false, urlResult := some "u",
          ogImageUrl := none } = true)
    ∧ (afterPhotoProcess
          { remoteDir := "og", findFontFile := fun _ => some [0],
            siteMeta := { siteName := "S", accentColor := none } }
          initialRunState
          { id := "i3", skipped := false, isForceMode := false, isForceManifest := false,
            renderOk := true, uploadOk := false, urlResult := some "u",
            ogImageUrl := none }).state.uploaded = initialRunState.uploaded
    ∧ (afterPhotoProcess
          { remoteDir := "og", findFontFile := fun _ => some [0],
            siteMeta := { siteName := "S", accentColor := none } }
          initialRunState
          { id := "i3", skipped := false, isForceMode := false, isForceManifest := false,
            renderOk := true, uploadOk := false, urlResult := some "u",
            ogImageUrl := none }).itemUrl = none := by
  have h := afterPhotoProcess_upload_failure
    { remoteDir := "og", findFontFile := fun _ => some [0],
      siteMeta := { siteName := "S", accentColor := none } }
    initialRunState
    { id := "i3", skipped := false, isForceMode := false, isForceManifest := false,
      renderOk := true, uploadOk := false, urlResult := some "u", ogImageUrl := none }
    [{ name := "Geist", data := [0] }, { name := "HarmonyOS Sans SC", data := [0] }]
    (by decide) (by decide) rfl (by decide) rfl
  exact ⟨by decide, h.1, h.2.2.1⟩

theorem loadFonts_none_of_missing (env : RunEnv)
    (hmiss : env.findFontFile "Geist-Medium.ttf" = none
      ∨ env.findFontFile "HarmonyOS_Sans_SC_Medium.ttf" = none) :
    loadFonts env = none := by
  cases h1 : env.findFontFile "Geist-Medium.ttf" with
  | none => simp [loadFonts, h1]
  | some g =>
    cases h2 : env.findFontFile "HarmonyOS_Sans_SC_Medium.ttf" with
    | none => simp [loadFonts, h1, h2]
    | some h' =>
      exfalso
      rcases hmiss with hm | hm
      · rw [h1] at hm; exact Option.noConfusion hm
      · rw [h2] at hm; exact Option.noConfusion hm

/-- C6: when either required font file is found in no candidate
directory and the run has no cached font bundle, afterPhotoProcess
performs no render, no upload and no URL resolution for any item
(including items on the skipped path), leaves every item's preview-URL
field unchanged, and keeps the cached bundle empty, so the whole run
behaves this way; the step still returns normally (non-fatal). -/
theorem afterPhotoProcess_fonts_unavailable (env : RunEnv) (st : PluginRunState)
    (hmiss : env.findFontFile "Geist-Medium.ttf" = none
      ∨ env.findFontFile "HarmonyOS_Sans_SC_Medium.ttf" = none)
    (hst : st.fonts = none) :
    (∀ it, (afterPhotoProcess env st it).itemUrl = it.ogImageUrl
        ∧ (afterPhotoProcess env st it).state.fonts = none
        ∧ ∀ e ∈ (afterPhotoProcess env st it).evs,
            isRenderEv e = false ∧ isUploadEv e = false ∧ isUrlEv e = false)
    ∧ (∀ items, ∀ e ∈ (runAll env st items).2,
        isRenderEv e = false ∧ isUploadEv e = false ∧ isUrlEv e = false) := by
  have hlf : loadFonts env = none := loadFonts_none_of_missing env hmiss
  have heffAt : ∀ st' : PluginRunState, st'.fonts = none → effFonts env st' = none := by
    intro st' h'
    simp [effFonts, h', hlf]
  constructor
  · intro it
    rw [afterPhotoProcess_of_fonts_none env st it (heffAt st hst)]
    refine ⟨rfl, ?_, ?_⟩
    · rw [stepPrelude_fonts, heffAt st hst]
    · intro e he
      have h := stepPrelude_evs env st e he
      exact ⟨h.2.1, h.1, h.2.2⟩
  · have aux : ∀ (items : List ItemCtx) (st' : PluginRunState), st'.fonts = none →
        ∀ e ∈ (runAll env st' items).2,
          isRenderEv e = false ∧ isUploadEv e = false ∧ isUrlEv e = false := by
      intro items
      induction items with
      | nil => intro st' h' e he; simp [runAll] at he
      | cons it rest ih =>
        intro st' h' e he
        simp only [runAll] at he
        rcases List.mem_append.mp he with h1 | h2
        · rw [afterPhotoProcess_of_fonts_none env st' it (heffAt st' h')] at h1
          have h := stepPrelude_evs env st' e h1
          exact ⟨h.2.1, h.1, h.2.2⟩
        · have hnext : (afterPhotoProcess env st' it).state.fonts = none := by
            rw [afterPhotoProcess_of_fonts_none env st' it (heffAt st' h')]
            rw [stepPrelude_fonts, heffAt st' h']
          exact ih _ hnext e h2
    intro items
    exact aux items st hst

/-- Witness for afterPhotoProcess_fonts_unavailable: with an environment
in which no font file is found, a skipped item keeps its unset URL and
the step emits no render, upload or URL event. -/
theorem afterPhotoProcess_fonts_unavailable_witness :
    ((fun _ : String => (none : Option ByteSeq)) "Geist-Medium.ttf" = none
      ∧ initialRunState.fonts = none)
    ∧ (afterPhotoProcess
        { remoteDir := "og", findFontFile := fun _ => none,
          siteMeta := { siteName := "S", accentColor := none } }
        initialRunState
        { id := "i4", skipped := true, isForceMode := false, isForceManifest := false,
          renderOk := true, uploadOk := true, urlResult := some "u",
          ogImageUrl := none }).itemUrl = none
    ∧ (afterPhotoProcess
        { remoteDir := "og", findFontFile := fun _ => none,
          siteMeta := { siteName := "S", accentColor := none } }
        initialRunState
        { id := "i4", skipped := true, isForceMode := false, isForceManifest := false,
          renderOk := true, uploadOk := true, urlResult := some "u",
          ogImageUrl := none }).state.fonts = none := by
  have h := (afterPhotoProcess_fonts_unavailable
    { remoteDir := "og", findFontFile := fun _ => none,
      siteMeta := { siteName := "S", accentColor := none } }
    initialRunState (Or.inl rfl) rfl).1
    { id := "i4", skipped := true, isForceMode := false, isForceManifest := false,
      renderOk := true, uploadOk := true, urlResult := some "u", ogImageUrl := none }
  exact ⟨⟨rfl, rfl⟩, h.1, h.2.1⟩

theorem stepPrelude_evs_of_fonts_some (env : RunEnv) (st : PluginRunState)
    (fs : List FontEntry) (h : st.fonts = some fs) :
    (stepPrelude env st).2 = if st.siteMeta.isNone then [RunEv.siteMetaLoad] else [] := by
  simp only [stepPrelude]
  cases hsm : st.siteMeta <;> simp [hsm, h]

theorem stepPrelude_evs_of_fonts_none (env : RunEnv) (st : PluginRunState)
    (h : st.fonts = none) :
    (stepPrelude env st).2 = (if st.siteMeta.isNone then [RunEv.siteMetaLoad] else [])
      ++ (match loadFonts env with
          | some _ => [RunEv.fontsLoad]
          | none => [RunEv.fontsLoad, RunEv.fontsWarn]) := by
  simp only [stepPrelude]
  cases hsm : st.siteMeta <;> cases hlf : loadFonts env <;> simp [hsm, h, hlf]

theorem finishWithUrl_fonts (st : PluginRunState) (it : ItemCtx) (key : String) :
    (finishWithUrl st it key).state.fonts = st.fonts := by
  simp only [finishWithUrl]
  split
  · rfl
  · cases hu : it.urlResult <;> simp [hu]

theorem stepBody_fonts (st : PluginRunState) (it : ItemCtx) (key : String) :
    (stepBody st it key).state.fonts = st.fonts := by
  simp only [stepBody]
  split
  · split <;> simp
  · split
    · simp
    · split
      · split
        · simp [finishWithUrl_fonts]
        · simp
      · simp [finishWithUrl_fonts]

theorem afterPhotoProcess_fonts (env : RunEnv) (st : PluginRunState) (it : ItemCtx) :
    (afterPhotoProcess env st it).state.fonts = effFonts env st := by
  cases heff : effFonts env st with
  | none =>
    rw [afterPhotoProcess_of_fonts_none env st it heff, stepPrelude_fonts, heff]
  | some fs =>
    rw [afterPhotoProcess_of_fonts_some env st it fs heff]
    show (stepBody (stepPrelude env st).1 it (remoteKeyFor env it)).state.fonts = some fs
    rw [stepBody_fonts, stepPrelude_fonts, heff]

theorem stepBody_evs_kinds (st : PluginRunState) (it : ItemCtx) (key : String) :
    ∀ e ∈ (stepBody st it key).evs, (isRenderEv e || isUploadEv e || isUrlEv e) = true := by
  intro e he
  have hurl : ∀ (s : PluginRunState) (k : String), e ∈ (finishWithUrl s it k).evs →
      (isRenderEv e || isUploadEv e || isUrlEv e) = true := by
    intro s k hm
    simp [finishWithUrl_evs s it k e hm]
  simp only [stepBody] at he
  split at he
  · split at he <;> simp at he <;> simp [he, isUrlEv]
  · split at he
    · simp at he
      simp [he, isRenderEv]
    · split at he
      · split at he
        · simp at he
          rcases he with rfl | rfl | hm
          · simp [isRenderEv]
          · simp [isUploadEv]
          · exact hurl _ _ hm
        · simp at he
          rcases he with rfl | rfl
          · simp [isRenderEv]
          · simp [isUploadEv]
      · simp at he
        rcases he with rfl | hm
        · simp [isRenderEv]
        · exact hurl _ _ hm

theorem stepBody_no_fontsLoad (st : PluginRunState) (it : ItemCtx) (key : String) :
    RunEv.fontsLoad ∉ (stepBody st it key).evs ∧ RunEv.fontsWarn ∉ (stepBody st it key).evs := by
  constructor <;> intro hm <;>
    have h := stepBody_evs_kinds st it key _ hm <;>
    simp [isRenderEv, isUploadEv, isUrlEv] at h

theorem afterPhotoProcess_count_fontsLoad (env : RunEnv) (st : PluginRunState) (it : ItemCtx) :
    (afterPhotoProcess env st it).evs.count RunEv.fontsLoad
      = if st.fonts.isNone then 1 else 0 := by
  cases hf : st.fonts with
  | some fs =>
    have heff : effFonts env st = some fs := by simp [effFonts, hf]
    rw [afterPhotoProcess_of_fonts_some env st it fs heff]
    show ((stepPrelude env st).2
        ++ (stepBody (stepPrelude env st).1 it (remoteKeyFor env it)).evs).count RunEv.fontsLoad
      = _
    rw [List.count_append, stepPrelude_evs_of_fonts_some env st fs hf,
      List.count_eq_zero.mpr (stepBody_no_fontsLoad _ _ _).1]
    cases hsm : st.siteMeta <;> simp
  | none =>
    cases hlf : loadFonts env with
    | none =>
      have heff : effFonts env st = none := by simp [effFonts, hf, hlf]
      rw [afterPhotoProcess_of_fonts_none env st it heff]
      show (stepPrelude env st).2.count RunEv.fontsLoad = _
      rw [stepPrelude_evs_of_fonts_none env st hf, hlf, List.count_append]
      cases hsm : st.siteMeta <;> simp
    | some fs =>
      have heff : effFonts env st = some fs := by simp [effFonts, hf, hlf]
      rw [afterPhotoProcess_of_fonts_some env st it fs heff]
      show ((stepPrelude env st).2
          ++ (stepBody (stepPrelude env st).1 it (remoteKeyFor env it)).evs).count RunEv.fontsLoad
        = _
      rw [List.count_append, stepPrelude_evs_of_fonts_none env st hf, hlf,
        List.count_eq_zero.mpr (stepBody_no_fontsLoad _ _ _).1, List.count_append]
      cases hsm : st.siteMeta <;> simp

theorem afterPhotoProcess_count_fontsWarn (env : RunEnv) (st : PluginRunState) (it : ItemCtx) :
    (afterPhotoProcess env st it).evs.count RunEv.fontsWarn
      = if st.fonts.isNone && (loadFonts env).isNone then 1 else 0 := by
  cases hf : st.fonts with
  | some fs =>
    have heff : effFonts env st = some fs := by simp [effFonts, hf]
    rw [afterPhotoProcess_of_fonts_some env st it fs heff]
    show ((stepPrelude env st).2
        ++ (stepBody (stepPrelude env st).1 it (remoteKeyFor env it)).evs).count RunEv.fontsWarn
      = _
    rw [List.count_append, stepPrelude_evs_of_fonts_some env st fs hf,
      List.count_eq_zero.mpr (stepBody_no_fontsLoad _ _ _).2]
    cases hsm : st.siteMeta <;> simp
  | none =>
    cases hlf : loadFonts env with
    | none =>
      have heff : effFonts env st = none := by simp [effFonts, hf, hlf]
      rw [afterPhotoProcess_of_fonts_none env st it heff]
      show (stepPrelude env st).2.count RunEv.fontsWarn = _
      rw [stepPrelude_evs_of_fonts_none env st hf, hlf, List.count_append]
      cases hsm : st.siteMeta <;> simp [hlf]
    | some fs =>
      have heff : effFonts env st = some fs := by simp [effFonts, hf, hlf]
      rw [afterPhotoProcess_of_fonts_some env st it fs heff]
      show ((stepPrelude env st).2
          ++ (stepBody (stepPrelude env st).1 it (remoteKeyFor env it)).evs).count RunEv.fontsWarn
        = _
      rw [List.count_append, stepPrelude_evs_of_fonts_none env st hf, hlf,
        List.count_eq_zero.mpr (stepBody_no_fontsLoad _ _ _).2, List.count_append]
      cases hsm : st.siteMeta <;> simp [hlf]

/-- C7 counterexample: in a run over two items with the font files
missing everywhere, the font-availability check (a fontsLoad event) runs
twice and the warning (a fontsWarn event) is emitted twice, because the
null result of loadFonts is written back as null and so is not detected
as cached on the next item; the claim that the check runs exactly once
per run with a single warning is therefore false on the code. -/
theorem fontsCheck_repeated_counterexample :
    (runAll
        { remoteDir := "og", findFontFile := fun _ => none,
          siteMeta := { siteName := "S", accentColor := none } }
        initialRunState
        [{ id := "a", skipped := false, isForceMode := false, isForceManifest := false,
           renderOk := true, uploadOk := true, urlResult := some "u", ogImageUrl := none },
         { id := "b", skipped := false, isForceMode := false, isForceManifest := false,
           renderOk := true, uploadOk := true, urlResult := some "u",
           ogImageUrl := none }]).2.count RunEv.fontsLoad = 2
    ∧ (runAll
        { remoteDir := "og", findFontFile := fun _ => none,
          siteMeta := { siteName := "S", accentColor := none } }
        initialRunState
        [{ id := "a", skipped := false, isForceMode := false, isForceManifest := false,
           renderOk := true, uploadOk := true, urlResult := some "u", ogImageUrl := none },
         { id := "b", skipped := false, isForceMode := false, isForceManifest := false,
           renderOk := true, uploadOk := true, urlResult := some "u",
           ogImageUrl := none }]).2.count RunEv.fontsWarn = 2 := by
  constructor <;> decide

/-- C7 amended: a successfully loaded font bundle is cached in the run
state, so once the state holds a bundle no further font load (or
warning) happens, and a run in which loadFonts succeeds performs the
check at most once; but when the fonts are unavailable the null outcome
is not recognised as cached, so the check and the warning are repeated
once per processed item (rendering is still skipped for all of them). -/
theorem fontsCheck_caching_amended :
    (∀ (env : RunEnv) (st : PluginRunState) (it : ItemCtx) (fs : List FontEntry),
        st.fonts = some fs →
          RunEv.fontsLoad ∉ (afterPhotoProcess env st it).evs
          ∧ RunEv.fontsWarn ∉ (afterPhotoProcess env st it).evs)
    ∧ (∀ (env : RunEnv), (loadFonts env).isSome = true →
        ∀ (st : PluginRunState) (items : List ItemCtx),
          (runAll env st items).2.count RunEv.fontsLoad ≤ 1)
    ∧ (∀ (env : RunEnv) (items : List ItemCtx), loadFonts env = none →
        (runAll env initialRunState items).2.count RunEv.fontsLoad = items.length
        ∧ (runAll env initialRunState items).2.count RunEv.fontsWarn = items.length) := by
  refine ⟨?_, ?_, ?_⟩
  · intro env st it fs h
    constructor
    · intro hm
      have hc := afterPhotoProcess_count_fontsLoad env st it
      rw [h] at hc
      simp only [Option.isNone_some, if_neg Bool.false_ne_true] at hc
      exact absurd hc (by simp [List.count_eq_zero, hm])
    · intro hm
      have hc := afterPhotoProcess_count_fontsWarn env st it
      rw [h] at hc
      simp only [Option.isNone_some, Bool.false_and, if_neg Bool.false_ne_true] at hc
      exact absurd hc (by simp [List.count_eq_zero, hm])
  · intro env hsome st items
    have aux : ∀ (is' : List ItemCtx) (st' : PluginRunState),
        (runAll env st' is').2.count RunEv.fontsLoad
          ≤ (if st'.fonts.isNone then 1 else 0) := by
      intro is'
      induction is' with
      | nil => intro st'; simp [runAll]
      | cons it rest ih =>
        intro st'
        simp only [runAll, List.count_append]
        rw [afterPhotoProcess_count_fontsLoad env st' it]
        have hnext : (afterPhotoProcess env st' it).state.fonts = effFonts env st' :=
          afterPhotoProcess_fonts env st' it
        cases hf : st'.fonts with
        | some fs =>
          have h0 : (afterPhotoProcess env st' it).state.fonts.isNone = false := by
            simp [hnext, effFonts, hf]
          have hrest := ih (afterPhotoProcess env st' it).state
          rw [h0] at hrest
          simp only [Bool.false_eq_true, if_false] at hrest
          simp [hf]
          omega
        | none =>
          rcases Option.isSome_iff_exists.mp hsome with ⟨fs, hfs⟩
          have h0 : (afterPhotoProcess env st' it).state.fonts.isNone = false := by
            simp [hnext, effFonts, hf, hfs]
          have hrest := ih (afterPhotoProcess env st' it).state
          rw [h0] at hrest
          simp only [Bool.false_eq_true, if_false] at hrest
          simp [hf]
          omega
    refine le_trans (aux items st) ?_
    split <;> omega
  · intro env items hnone
    have aux : ∀ (is' : List ItemCtx) (st' : PluginRunState), st'.fonts = none →
        (runAll env st' is').2.count RunEv.fontsLoad = is'.length
        ∧ (runAll env st' is').2.count RunEv.fontsWarn = is'.length := by
      intro is'
      induction is' with
      | nil => intro st' h'; simp [runAll]
      | cons it rest ih =>
        intro st' h'
        have hnext : (afterPhotoProcess env st' it).state.fonts = none := by
          rw [afterPhotoProcess_fonts env st' it]
          simp [effFonts, h', hnone]
        have hr := ih (afterPhotoProcess env st' it).state hnext
        simp only [runAll, List.count_append, List.length_cons]
        rw [afterPhotoProcess_count_fontsLoad env st' it,
          afterPhotoProcess_count_fontsWarn env st' it, hr.1, hr.2]
        simp [h', hnone]
        omega
    exact aux items initialRunState rfl

/-- Witness for fontsCheck_caching_amended: with a bundle already cached
in the run state, processing an item emits no font load and no warning. -/
theorem fontsCheck_caching_amended_witness :
    ({ uploaded := [], urlCache := [], fonts := some [{ name := "Geist", data := [0] }],
        siteMeta := some { siteName := "S", accentColor := none } }
          : PluginRunState).fonts = some [{ name := "Geist", data := [0] }]
    ∧ RunEv.fontsLoad ∉ (afterPhotoProcess
        { remoteDir := "og", findFontFile := fun _ => some [0],
          siteMeta := { siteName := "S", accentColor := none } }
        { uploaded := [], urlCache := [], fonts := some [{ name := "Geist", data := [0] }],
          siteMeta := some { siteName := "S", accentColor := none } }
        { id := "i5", skipped := false, isForceMode := false, isForceManifest := false,
          renderOk := true, uploadOk := true, urlResult := some "u",
          ogImageUrl := none }).evs :=
  ⟨rfl,
    (fontsCheck_caching_amended.1
      { remoteDir := "og", findFontFile := fun _ => some [0],
        siteMeta := { siteName := "S", accentColor := none } }
      { uploaded := [], urlCache := [], fonts := some [{ name := "Geist", data := [0] }],
        siteMeta := some { siteName := "S", accentColor := none } }
      { id := "i5", skipped := false, isForceMode := false, isForceManifest := false,
        renderOk := true, uploadOk := true, urlResult := some "u", ogImageUrl := none }
      [{ name := "Geist", data := [0] }] rfl).1⟩

theorem setInsert_mem (s : List String) (k x : String) :
    x ∈ setInsert s k ↔ x ∈ s ∨ x = k := by
  simp only [setInsert]
  split
  · rename_i h
    constructor
    · exact Or.inl
    · rintro (hx | rfl)
      · exact hx
      · simpa using h
  · rw [List.mem_cons]
    tauto

theorem stepBody_uploaded_cases (st : PluginRunState) (it : ItemCtx) (key : String) :
    (stepBody st it key).state.uploaded = st.uploaded
    ∨ ((stepBody st it key).state.uploaded = setInsert st.uploaded key
        ∧ RunEv.uploadAttempt key true ∈ (stepBody st it key).evs) := by
  simp only [stepBody]
  split
  · split <;> simp
  · split
    · simp
    · split
      · split
        · right
          refine ⟨?_, by simp⟩
          show (finishWithUrl { st with uploaded := setInsert st.uploaded key } it key).state.uploaded
            = setInsert st.uploaded key
          rw [finishWithUrl_uploaded]
        · left
          rfl
      · left
        show (finishWithUrl st it key).state.uploaded = st.uploaded
        rw [finishWithUrl_uploaded]

theorem afterPhotoProcess_uploaded_cases (env : RunEnv) (st : PluginRunState) (it : ItemCtx) :
    (afterPhotoProcess env st it).state.uploaded = st.uploaded
    ∨ ((afterPhotoProcess env st it).state.uploaded
          = setInsert st.uploaded (remoteKeyFor env it)
        ∧ RunEv.uploadAttempt (remoteKeyFor env it) true ∈ (afterPhotoProcess env st it).evs) := by
  cases heff : effFonts env st with
  | none =>
    left
    rw [afterPhotoProcess_of_fonts_none env st it heff]
    exact stepPrelude_uploaded env st
  | some fs =>
    rw [afterPhotoProcess_of_fonts_some env st it fs heff]
    rcases stepBody_uploaded_cases (stepPrelude env st).1 it (remoteKeyFor env it)
      with h | ⟨h1, h2⟩
    · left
      show (stepBody (stepPrelude env st).1 it (remoteKeyFor env it)).state.uploaded = st.uploaded
      rw [h, stepPrelude_uploaded]
    · right
      constructor
      · show (stepBody (stepPrelude env st).1 it (remoteKeyFor env it)).state.uploaded
          = setInsert st.uploaded (remoteKeyFor env it)
        rw [h1, stepPrelude_uploaded]
      · exact List.mem_append.mpr (Or.inr h2)

/-- C10: within one run the uploadedKeys set only grows, a key newly in
the set after a step was uploaded successfully during that step, and
hence every key in the set at the end of a run corresponds to at least
one successful upload performed during the run. -/
theorem uploadedKeys_invariant :
    (∀ (env : RunEnv) (st : PluginRunState) (it : ItemCtx) (k : String),
        k ∈ st.uploaded → k ∈ (afterPhotoProcess env st it).state.uploaded)
    ∧ (∀ (env : RunEnv) (st : PluginRunState) (it : ItemCtx) (k : String),
        k ∈ (afterPhotoProcess env st it).state.uploaded →
          k ∈ st.uploaded ∨ RunEv.uploadAttempt k true ∈ (afterPhotoProcess env st it).evs)
    ∧ (∀ (env : RunEnv) (items : List ItemCtx) (k : String),
        k ∈ (runAll env initialRunState items).1.uploaded →
          RunEv.uploadAttempt k true ∈ (runAll env initialRunState items).2) := by
  have hB : ∀ (env : RunEnv) (st : PluginRunState) (it : ItemCtx) (k : String),
      k ∈ (afterPhotoProcess env st it).state.uploaded →
        k ∈ st.uploaded ∨ RunEv.uploadAttempt k true ∈ (afterPhotoProcess env st it).evs := by
    intro env st it k hk
    rcases afterPhotoProcess_uploaded_cases env st it with h | ⟨h1, h2⟩
    · rw [h] at hk
      exact Or.inl hk
    · rw [h1] at hk
      rcases (setInsert_mem _ _ _).mp hk with hk' | rfl
      · exact Or.inl hk'
      · exact Or.inr h2
  refine ⟨?_, hB, ?_⟩
  · intro env st it k hk
    rcases afterPhotoProcess_uploaded_cases env st it with h | ⟨h1, _⟩
    · rw [h]
      exact hk
    · rw [h1]
      exact (setInsert_mem _ _ _).mpr (Or.inl hk)
  · have aux : ∀ (env : RunEnv) (items : List ItemCtx) (st : PluginRunState) (k : String),
        k ∈ (runAll env st items).1.uploaded →
          k ∈ st.uploaded ∨ RunEv.uploadAttempt k true ∈ (runAll env st items).2 := by
      intro env items
      induction items with
      | nil =>
        intro st k hk
        simp only [runAll] at hk ⊢
        exact Or.inl hk
      | cons it rest ih =>
        intro st k hk
        simp only [runAll] at hk ⊢
        rcases ih (afterPhotoProcess env st it).state k hk with h1 | h2
        · rcases hB env st it k h1 with h3 | h4
          · exact Or.inl h3
          · exact Or.inr (List.mem_append.mpr (Or.inl h4))
        · exact Or.inr (List.mem_append.mpr (Or.inr h2))
    intro env items k hk
    rcases aux env items initialRunState k hk with h | h
    · simp [initialRunState] at h
    · exact h

/-- Witness for uploadedKeys_invariant: after a one-item run that
uploads key og/i6.png, the key is in the uploaded set and the run trace
holds its successful upload event. -/
theorem uploadedKeys_invariant_witness :
    "og/i6.png" ∈ (runAll
        { remoteDir := "og", findFontFile := fun _ => some [0],
          siteMeta := { siteName := "S", accentColor := none } }
        initialRunState
        [{ id := "i6", skipped := false, isForceMode := false, isForceManifest := false,
           renderOk := true, uploadOk := true, urlResult := some "u",
           ogImageUrl := none }]).1.uploaded
    ∧ RunEv.uploadAttempt "og/i6.png" true ∈ (runAll
        { remoteDir := "og", findFontFile := fun _ => some [0],
          siteMeta := { siteName := "S", accentColor := none } }
        initialRunState
        [{ id := "i6", skipped := false, isForceMode := false, isForceManifest := false,
           renderOk := true, uploadOk := true, urlResult := some "u",
           ogImageUrl := none }]).2 :=
  ⟨by decide,
    uploadedKeys_invariant.2.2
      { remoteDir := "og", findFontFile := fun _ => some [0],
        siteMeta := { siteName := "S", accentColor := none } }
      [{ id := "i6", skipped := false, isForceMode := false, isForceManifest := false,
         renderOk := true, uploadOk := true, urlResult := some "u", ogImageUrl := none }]
      "og/i6.png" (by decide)⟩

end Afilmory
